import Mathlib

/-!
# Blob leaf sequence (`go/types/blob_leaf_sequence.go`)

A shallow embedding of the raw-byte leaf of the chunked-sequence tree and the
properties of its methods.

Conventions of the embedding:

* a Go `byte` is a `Fin 256`; the slice `data []byte` is a `List Byte`.  Go
  guarantees `len(data)` fits an `int`; where a statement depends on that, the
  bound `data.length < 2 ^ 63` is an explicit hypothesis;
* a Go `int` is an `Int`; the conversion `uint64(x)` is reduction modulo `2 ^ 64`;
* a run-time panic is the `error` side of `Except Panic`;
* `interface{}` values are `GoValue`s: a dynamic type together with a value;
* `ValueReader`, `Ref` and `*Type` are declared elsewhere in the package and are
  type parameters here;
* effects are the subject of the namespace `Store`: there the slice is a header into a
  byte memory, the reader has its `resolve` operation, and every function of the source
  is a computation over the world made of that memory and the log of reader calls.
-/

namespace Noms

/-- A Go `byte` (alias of `uint8`). -/
abbrev Byte := Fin 256

/-- Run-time panics the leaf's methods can raise. -/
inductive Panic where
  /-- The panic `index out of range`, raised by a slice index expression. -/
  | indexOutOfRange
  /-- The panic raised by comparing interface values of one uncomparable dynamic type. -/
  | uncomparable
  deriving DecidableEq, Repr

/-- A fragment of the values an `interface{}` can hold, tagged by dynamic type. -/
inductive GoValue where
  /-- The nil interface value. -/
  | nil
  /-- Dynamic type `bool`. -/
  | bool (b : Bool)
  /-- Dynamic type `uint8`, that is `byte`. -/
  | uint8 (b : Byte)
  /-- Dynamic type `int`. -/
  | int (i : Int)
  /-- Dynamic type `uint64`. -/
  | uint64 (n : Nat)
  /-- Dynamic type `string`. -/
  | string (s : String)
  /-- A defined type `type name uint8`: distinct from `uint8`, comparable. -/
  | namedUint8 (name : String) (b : Byte)
  /-- Dynamic type `[]byte`: a slice, not comparable. -/
  | byteSlice (s : List Byte)
  /-- A map value (identified by its address): not comparable. -/
  | mapVal (addr : Nat)
  /-- A function value (identified by its address): not comparable. -/
  | funcVal (addr : Nat)
  deriving DecidableEq, Repr

/-- Whether two interface values have identical dynamic types. -/
def GoValue.sameType : GoValue → GoValue → Bool
  | .nil, .nil => true
  | .bool _, .bool _ => true
  | .uint8 _, .uint8 _ => true
  | .int _, .int _ => true
  | .uint64 _, .uint64 _ => true
  | .string _, .string _ => true
  | .namedUint8 n _, .namedUint8 m _ => n == m
  | .byteSlice _, .byteSlice _ => true
  | .mapVal _, .mapVal _ => true
  | .funcVal _, .funcVal _ => true
  | _, _ => false

/-- Whether the dynamic type of an interface value is comparable. -/
def GoValue.comparable : GoValue → Bool
  | .byteSlice _ => false
  | .mapVal _ => false
  | .funcVal _ => false
  | _ => true

deriving instance DecidableEq for Except

/-- Go's `==` on interface values: equal when the dynamic types are identical and the
values equal; a panic when the operands share an uncomparable dynamic type. -/
def ifaceEq (x y : GoValue) : Except Panic Bool :=
  if x.sameType y then
    if x.comparable then .ok (decide (x = y)) else .error .uncomparable
  else .ok false

/-- The conversion `uint64(x)` of a Go `int`: the value modulo `2 ^ 64`. -/
def toUint64 (x : Int) : Nat := (x % 2 ^ 64).toNat

/-- The range of Go's `int` on a 64-bit target. -/
def isInt (i : Int) : Prop := -(2 ^ 63) ≤ i ∧ i < 2 ^ 63

/-- The index expression `data[idx]` on a byte slice: panics unless
`0 <= idx < len(data)`. -/
def sliceIndex (data : List Byte) : Int → Except Panic Byte
  | .ofNat n =>
    match data[n]? with
    | some b => .ok b
    | none => .error .indexOutOfRange
  | .negSucc _ => .error .indexOutOfRange

/-- The struct `blobLeafSequence`: the bytes of the leaf and its bound reader. -/
structure blobLeafSequence (ValueReader : Type) where
  /-- The field `data []byte`. -/
  data : List Byte
  /-- The field `vr ValueReader`. -/
  vr : ValueReader

section Methods

variable {ValueReader : Type}

/-- The constructor `newBlobLeafSequence(vr, data)`. -/
def newBlobLeafSequence (vr : ValueReader) (data : List Byte) :
    blobLeafSequence ValueReader :=
  { data := data, vr := vr }

/-- The method `getOffset`: `uint64(idx)`. -/
def blobLeafSequence.getOffset (_bl : blobLeafSequence ValueReader) (idx : Int) : Nat :=
  toUint64 idx

/-- The method `equalsAt`: `bl.data[idx] == other`, the indexed byte boxed and
compared with the candidate. -/
def blobLeafSequence.equalsAt (bl : blobLeafSequence ValueReader) (idx : Int)
    (other : GoValue) : Except Panic Bool := do
  let b ← sliceIndex bl.data idx
  ifaceEq (.uint8 b) other

/-- The method `getItem`: `bl.data[idx]`, boxed as a `sequenceItem`. -/
def blobLeafSequence.getItem (bl : blobLeafSequence ValueReader) (idx : Int) :
    Except Panic GoValue := do
  let b ← sliceIndex bl.data idx
  pure (.uint8 b)

/-- The method `seqLen`: `len(bl.data)`. -/
def blobLeafSequence.seqLen (bl : blobLeafSequence ValueReader) : Int :=
  (bl.data.length : Int)

/-- The method `numLeaves`: `uint64(len(bl.data))`. -/
def blobLeafSequence.numLeaves (bl : blobLeafSequence ValueReader) : Nat :=
  toUint64 (bl.data.length : Int)

/-- The method `valueReader`: the field `vr`. -/
def blobLeafSequence.valueReader (bl : blobLeafSequence ValueReader) : ValueReader :=
  bl.vr

/-- The method `Chunks`: the empty slice literal `[]Ref{}`. -/
def blobLeafSequence.Chunks (Ref : Type) (_bl : blobLeafSequence ValueReader) : List Ref :=
  []

/-- The method `Type`: the package-level `BlobType`, taken as a parameter. -/
def blobLeafSequence.Type_ {GoType : Type} (BlobType : GoType)
    (_bl : blobLeafSequence ValueReader) : GoType :=
  BlobType

/-- The loop `for i := start; n items remain; i++ { out = append(out, seq.getItem(i)) }`:
reads `n` items from index `start` on, in index order. -/
def readFrom (bl : blobLeafSequence ValueReader) : Nat → Int → Except Panic (List GoValue)
  | 0, _ => .ok []
  | n + 1, i => do
    let x ← bl.getItem i
    let xs ← readFrom bl n (i + 1)
    pure (x :: xs)

/-- Reading a leaf with `getItem` at the indices `0, 1, ..., seqLen() - 1`, in order. -/
def readInOrder (bl : blobLeafSequence ValueReader) : Except Panic (List GoValue) :=
  readFrom bl bl.seqLen.toNat 0

/-- A call of one of the leaf's methods, with its arguments. -/
inductive Op where
  /-- The call `getOffset(idx)`. -/
  | getOffset (idx : Int)
  /-- The call `equalsAt(idx, other)`. -/
  | equalsAt (idx : Int) (other : GoValue)
  /-- The call `getItem(idx)`. -/
  | getItem (idx : Int)
  /-- The call `seqLen()`. -/
  | seqLen
  /-- The call `numLeaves()`. -/
  | numLeaves
  /-- The call `valueReader()`. -/
  | valueReader
  /-- The call `Chunks()`. -/
  | Chunks
  /-- The call `Type()`. -/
  | Type_

/-- The expression `a.equalsAt(i, b.getItem(i))` on two leaves: the argument
`b.getItem(i)` is evaluated first, a panic in it ends the evaluation, and its item is
the candidate handed to `a.equalsAt`. -/
def equalsAtItemOf {VR1 VR2 : Type} (a : blobLeafSequence VR1) (b : blobLeafSequence VR2)
    (i : Int) : Except Panic Bool := do
  let item ← b.getItem i
  a.equalsAt i item

end Methods

/-! ## The leaf over a store: backing arrays and reader calls made explicit

The definitions above read a leaf as a value.  The ones below embed the same source with
the two things a method body could affect kept in an explicit world: the byte memory in
which the backing array of the slice `data` lives, and the log of the chunks resolved
through a value reader.  Every function of the source is a computation over that world.
-/

namespace Store

/-- Why resolving a chunk can fail. -/
inductive ReadError where
  /-- No chunk is stored under the hash. -/
  | notFound
  /-- The chunk could not be fetched. -/
  | transport
  deriving DecidableEq, Repr

/-- Modelled from the spec: the interface `ValueReader`, declared outside this file of the
package.  The spec gives it one operation, `resolve(ContentHash) -> Node`, which may fail
with `NotFound` or a transport error. -/
structure ValueReader (Hash Node : Type) where
  /-- What the reader answers for a hash. -/
  resolve : Hash → Except ReadError Node

/-- The world outside a method's locals. -/
structure World (Hash : Type) where
  /-- The byte memory: the backing arrays of slices live here. -/
  mem : Nat → Byte
  /-- The hashes resolved through value readers so far, the latest first. -/
  resolved : List Hash

/-- A computation: from a world to a value or a panic, and the world it leaves (what a
computation wrote before it panicked stays written). -/
def Eff (Hash α : Type) : Type := World Hash → Except Panic α × World Hash

/-- A computation that returns a value and touches nothing. -/
def Eff.pure {Hash α : Type} (a : α) : Eff Hash α := fun w => (.ok a, w)

/-- Sequencing: the second computation runs in the world the first one left, unless the
first one panicked. -/
def Eff.bind {Hash α β : Type} (m : Eff Hash α) (f : α → Eff Hash β) : Eff Hash β := fun w =>
  match m w with
  | (.ok a, w1) => f a w1
  | (.error p, w1) => (.error p, w1)

instance {Hash : Type} : Monad (Eff Hash) where
  pure := Eff.pure
  bind := Eff.bind

/-- Raising a panic. -/
def raise {Hash α : Type} (p : Panic) : Eff Hash α := fun w => (.error p, w)

/-- An operation that can only return or panic, such as a comparison. -/
def ofExcept {Hash α : Type} (r : Except Panic α) : Eff Hash α := fun w => (r, w)

/-- Reading the byte at an address. -/
def load {Hash : Type} (addr : Nat) : Eff Hash Byte := fun w => (.ok (w.mem addr), w)

/-- Writing a byte at an address (no function of the leaf does; it is what an in-place
write to a backing array would be). -/
def store {Hash : Type} (addr : Nat) (b : Byte) : Eff Hash Unit := fun w =>
  (.ok (), { w with mem := fun a => if a = addr then b else w.mem a })

/-- Modelled from the spec: a call of the reader's `resolve(hash)`; it answers what the
reader holds for the hash and is recorded in the world (no function of the leaf makes
one). -/
def ValueReader.ReadValue {Hash Node : Type} (vr : ValueReader Hash Node) (h : Hash) :
    Eff Hash (Except ReadError Node) := fun w =>
  (.ok (vr.resolve h), { w with resolved := h :: w.resolved })

/-- A slice header: the address of the first element in the backing array, the length
and the capacity. -/
structure Slice where
  /-- Address of element 0. -/
  ptr : Nat
  /-- The value of `len(s)`. -/
  len : Nat
  /-- The value of `cap(s)`. -/
  cap : Nat
  deriving DecidableEq, Repr

/-- The bytes a slice denotes in a world: elements `0 .. len - 1` of its backing array. -/
def Slice.bytes {Hash : Type} (s : Slice) (w : World Hash) : List Byte :=
  (List.range s.len).map (fun i => w.mem (s.ptr + i))

/-- The index expression `s[idx]`: the bounds check against `len(s)`, then the load. -/
def Slice.index {Hash : Type} (s : Slice) : Int → Eff Hash Byte
  | .ofNat n => if n < s.len then load (s.ptr + n) else raise .indexOutOfRange
  | .negSucc _ => raise .indexOutOfRange

/-- The assignment `s[idx] = b` (no function of the leaf contains one). -/
def Slice.assign {Hash : Type} (s : Slice) (idx : Int) (b : Byte) : Eff Hash Unit :=
  match idx with
  | .ofNat n => if n < s.len then store (s.ptr + n) b else raise .indexOutOfRange
  | .negSucc _ => raise .indexOutOfRange

/-- The struct `blobLeafSequence`, with `data` a slice header and `vr` a reader. -/
structure blobLeafSequence (Hash Node : Type) where
  /-- The field `data []byte`. -/
  data : Slice
  /-- The field `vr ValueReader`. -/
  vr : ValueReader Hash Node

section StoreMethods

variable {Hash Node : Type}

/-- The constructor `newBlobLeafSequence(vr, data)`: the struct literal
`blobLeafSequence{data, vr}`; the slice header is copied, the backing array shared. -/
def newBlobLeafSequence (vr : ValueReader Hash Node) (data : Slice) :
    Eff Hash (blobLeafSequence Hash Node) :=
  pure { data := data, vr := vr }

/-- The method `getOffset`: `return uint64(idx)`. -/
def blobLeafSequence.getOffset (_bl : blobLeafSequence Hash Node) (idx : Int) :
    Eff Hash Nat :=
  pure (toUint64 idx)

/-- The method `equalsAt`: `return bl.data[idx] == other`. -/
def blobLeafSequence.equalsAt (bl : blobLeafSequence Hash Node) (idx : Int)
    (other : GoValue) : Eff Hash Bool := do
  let b ← bl.data.index idx
  ofExcept (ifaceEq (.uint8 b) other)

/-- The method `getItem`: `return bl.data[idx]`, boxed as a `sequenceItem`. -/
def blobLeafSequence.getItem (bl : blobLeafSequence Hash Node) (idx : Int) :
    Eff Hash GoValue := do
  let b ← bl.data.index idx
  pure (.uint8 b)

/-- The method `seqLen`: `return len(bl.data)`. -/
def blobLeafSequence.seqLen (bl : blobLeafSequence Hash Node) : Eff Hash Int :=
  pure (bl.data.len : Int)

/-- The method `numLeaves`: `return uint64(len(bl.data))`. -/
def blobLeafSequence.numLeaves (bl : blobLeafSequence Hash Node) : Eff Hash Nat :=
  pure (toUint64 (bl.data.len : Int))

/-- The method `valueReader`: `return bl.vr`. -/
def blobLeafSequence.valueReader (bl : blobLeafSequence Hash Node) :
    Eff Hash (ValueReader Hash Node) :=
  pure bl.vr

/-- The method `Chunks`: `return []Ref{}`. -/
def blobLeafSequence.Chunks (Ref : Type) (_bl : blobLeafSequence Hash Node) :
    Eff Hash (List Ref) :=
  pure []

/-- The method `Type`: `return BlobType`, the package-level value taken as a parameter. -/
def blobLeafSequence.Type_ {GoType : Type} (BlobType : GoType)
    (_bl : blobLeafSequence Hash Node) : Eff Hash GoType :=
  pure BlobType

/-- The program `newBlobLeafSequence(vr, data).equalsAt(idx, other)`. -/
def equalsAtOnNew (vr : ValueReader Hash Node) (data : Slice) (idx : Int)
    (other : GoValue) : Eff Hash Bool := do
  let bl ← newBlobLeafSequence vr data
  bl.equalsAt idx other

/-- What a method call hands back to its caller: the returned value or the panic. -/
inductive Outcome (Hash Node Ref GoType : Type) where
  /-- From `getOffset`. -/
  | offset (r : Except Panic Nat)
  /-- From `equalsAt`. -/
  | equal (r : Except Panic Bool)
  /-- From `getItem`. -/
  | item (r : Except Panic GoValue)
  /-- From `seqLen`. -/
  | len (r : Except Panic Int)
  /-- From `numLeaves`. -/
  | leaves (r : Except Panic Nat)
  /-- From `valueReader`. -/
  | reader (r : Except Panic (ValueReader Hash Node))
  /-- From `Chunks`. -/
  | chunks (r : Except Panic (List Ref))
  /-- From `Type`. -/
  | typ (r : Except Panic GoType)

/-- One method call on a leaf: the method named by the call runs, with the leaf as its
value receiver, in the current world; the outcome and the world it leaves come back. -/
def blobLeafSequence.call (Ref : Type) {GoType : Type} (BlobType : GoType)
    (bl : blobLeafSequence Hash Node) (op : Op) (w : World Hash) :
    Outcome Hash Node Ref GoType × World Hash :=
  match op with
  | .getOffset idx => (.offset (bl.getOffset idx w).1, (bl.getOffset idx w).2)
  | .equalsAt idx other => (.equal (bl.equalsAt idx other w).1, (bl.equalsAt idx other w).2)
  | .getItem idx => (.item (bl.getItem idx w).1, (bl.getItem idx w).2)
  | .seqLen => (.len (bl.seqLen w).1, (bl.seqLen w).2)
  | .numLeaves => (.leaves (bl.numLeaves w).1, (bl.numLeaves w).2)
  | .valueReader => (.reader (bl.valueReader w).1, (bl.valueReader w).2)
  | .Chunks => (.chunks (bl.Chunks Ref w).1, (bl.Chunks Ref w).2)
  | .Type_ => (.typ (bl.Type_ BlobType w).1, (bl.Type_ BlobType w).2)

/-- A sequence of method calls on one leaf: each call runs in the world the previous one
left (a panicking call is recovered by the caller and the sequence goes on). -/
def blobLeafSequence.run (Ref : Type) {GoType : Type} (BlobType : GoType)
    (bl : blobLeafSequence Hash Node) :
    List Op → World Hash → List (Outcome Hash Node Ref GoType) × World Hash
  | [], w => ([], w)
  | op :: ops, w =>
    let r := bl.call Ref BlobType op w
    let rs := blobLeafSequence.run Ref BlobType bl ops r.2
    (r.1 :: rs.1, rs.2)

end StoreMethods

end Store

/-! ## Basic facts about the index expression and the conversion -/

section Lemmas

variable {ValueReader : Type}

theorem sliceIndex_natCast (data : List Byte) (n : Nat) :
    sliceIndex data (n : Int) =
      match data[n]? with
      | some b => .ok b
      | none => .error .indexOutOfRange := rfl

theorem sliceIndex_of_lt (data : List Byte) (n : Nat) (h : n < data.length) :
    sliceIndex data (n : Int) = .ok (data.get ⟨n, h⟩) := by
  rw [sliceIndex_natCast]
  simp [List.getElem?_eq_getElem h]

theorem sliceIndex_of_le (data : List Byte) (n : Nat) (h : data.length ≤ n) :
    sliceIndex data (n : Int) = .error .indexOutOfRange := by
  rw [sliceIndex_natCast]
  simp [List.getElem?_eq_none h]

theorem sliceIndex_of_neg (data : List Byte) (idx : Int) (h : idx < 0) :
    sliceIndex data idx = .error .indexOutOfRange := by
  cases idx with
  | ofNat n => exact absurd h (by simp)
  | negSucc n => rfl

theorem sliceIndex_ok_iff (data : List Byte) (idx : Int) :
    (∃ b, sliceIndex data idx = .ok b) ↔ (0 ≤ idx ∧ idx < (data.length : Int)) := by
  cases idx with
  | ofNat n =>
    rw [Int.ofNat_eq_coe]
    by_cases h : n < data.length
    · rw [sliceIndex_of_lt data n h]
      simp [h]
    · rw [sliceIndex_of_le data n (Nat.le_of_not_lt h)]
      simp [h]
  | negSucc n =>
    simp [sliceIndex, Int.negSucc_lt_zero, Int.negSucc_not_nonneg]

theorem sliceIndex_error_iff (data : List Byte) (idx : Int) :
    sliceIndex data idx = .error .indexOutOfRange ↔ (idx < 0 ∨ (data.length : Int) ≤ idx) := by
  cases idx with
  | ofNat n =>
    rw [Int.ofNat_eq_coe]
    by_cases h : n < data.length
    · rw [sliceIndex_of_lt data n h]
      simp [h]
    · rw [sliceIndex_of_le data n (Nat.le_of_not_lt h)]
      simp [Nat.le_of_not_lt h]
  | negSucc n =>
    simp [sliceIndex, Int.negSucc_lt_zero]

theorem toUint64_of_nonneg_lt (x : Int) (h0 : 0 ≤ x) (h1 : x < 2 ^ 64) :
    (toUint64 x : Int) = x := by
  unfold toUint64
  rw [Int.emod_eq_of_lt h0 h1]
  exact Int.toNat_of_nonneg h0

theorem toUint64_cast (x : Int) : (toUint64 x : Int) = x % 2 ^ 64 := by
  unfold toUint64
  exact Int.toNat_of_nonneg (Int.emod_nonneg _ (by norm_num))

theorem readFrom_suffix (bl : blobLeafSequence ValueReader) (suf : List Byte) :
    ∀ pre : List Byte, bl.data = pre ++ suf →
      readFrom bl suf.length (pre.length : Int) = .ok (suf.map GoValue.uint8) := by
  induction suf with
  | nil => intro pre _; rfl
  | cons x xs ih =>
    intro pre h
    have hx : bl.data[pre.length]? = some x := by
      rw [h, List.getElem?_append_right (Nat.le_refl _)]
      simp
    have hget : bl.getItem (pre.length : Int) = .ok (.uint8 x) := by
      unfold blobLeafSequence.getItem
      rw [sliceIndex_natCast, hx]
      rfl
    have hrest := ih (pre ++ [x]) (by rw [h]; simp)
    have hcast : ((pre ++ [x]).length : Int) = (pre.length : Int) + 1 := by simp
    rw [hcast] at hrest
    show (do
      let y ← bl.getItem (pre.length : Int)
      let ys ← readFrom bl xs.length ((pre.length : Int) + 1)
      pure (y :: ys)) = _
    rw [hget, hrest]
    rfl

theorem ifaceEq_uint8 (b : Byte) (other : GoValue) :
    ifaceEq (.uint8 b) other = .ok (decide (other = .uint8 b)) := by
  cases other <;> simp [ifaceEq, GoValue.sameType, GoValue.comparable, eq_comm]

theorem getItem_of_lt (bl : blobLeafSequence ValueReader) (n : Nat)
    (h : n < bl.data.length) :
    bl.getItem (n : Int) = .ok (.uint8 (bl.data.get ⟨n, h⟩)) := by
  unfold blobLeafSequence.getItem
  rw [sliceIndex_of_lt bl.data n h]
  rfl

theorem equalsAt_of_lt (bl : blobLeafSequence ValueReader) (n : Nat)
    (h : n < bl.data.length) (other : GoValue) :
    bl.equalsAt (n : Int) other = .ok (decide (other = .uint8 (bl.data.get ⟨n, h⟩))) := by
  unfold blobLeafSequence.equalsAt
  rw [sliceIndex_of_lt bl.data n h]
  exact ifaceEq_uint8 _ other

theorem equalsAt_of_out_of_range (bl : blobLeafSequence ValueReader) (idx : Int)
    (other : GoValue) (h : idx < 0 ∨ (bl.data.length : Int) ≤ idx) :
    bl.equalsAt idx other = .error .indexOutOfRange := by
  unfold blobLeafSequence.equalsAt
  rw [(sliceIndex_error_iff bl.data idx).2 h]
  rfl

theorem toNat_lt_length (data : List Byte) (idx : Int) (h0 : 0 ≤ idx)
    (h1 : idx < (data.length : Int)) : idx.toNat < data.length := by
  have : ((idx.toNat : Nat) : Int) < (data.length : Int) := by
    rw [Int.toNat_of_nonneg h0]; exact h1
  exact_mod_cast this

/-! ### The store-level methods: what they return and the world they leave -/

theorem store_index_eq {Hash : Type} (s : Store.Slice) (idx : Int) (w : Store.World Hash) :
    s.index idx w = (sliceIndex (s.bytes w) idx, w) := by
  cases idx with
  | ofNat n =>
    by_cases h : n < s.len
    · simp [Store.Slice.index, Store.load, sliceIndex, Store.Slice.bytes, h,
        List.getElem?_map, List.getElem?_range]
    · have hr : (List.range s.len)[n]? = none :=
        List.getElem?_eq_none (by simpa using Nat.le_of_not_lt h)
      simp [Store.Slice.index, Store.raise, sliceIndex, Store.Slice.bytes, h,
        List.getElem?_map, hr]
  | negSucc n => rfl

theorem store_bytes_length {Hash : Type} (s : Store.Slice) (w : Store.World Hash) :
    (s.bytes w).length = s.len := by
  simp [Store.Slice.bytes]

theorem store_equalsAt_eq {Hash Node : Type} (bl : Store.blobLeafSequence Hash Node)
    (idx : Int) (other : GoValue) (w : Store.World Hash) :
    bl.equalsAt idx other w
      = ((sliceIndex (bl.data.bytes w) idx).bind (fun b => ifaceEq (.uint8 b) other), w) := by
  show Store.Eff.bind (bl.data.index idx) (fun b => Store.ofExcept (ifaceEq (.uint8 b) other)) w
    = _
  unfold Store.Eff.bind
  rw [store_index_eq]
  cases sliceIndex (bl.data.bytes w) idx <;> rfl

theorem store_getItem_eq {Hash Node : Type} (bl : Store.blobLeafSequence Hash Node)
    (idx : Int) (w : Store.World Hash) :
    bl.getItem idx w
      = ((sliceIndex (bl.data.bytes w) idx).bind (fun b => .ok (GoValue.uint8 b)), w) := by
  show Store.Eff.bind (bl.data.index idx) (fun b => Store.Eff.pure (GoValue.uint8 b)) w = _
  unfold Store.Eff.bind
  rw [store_index_eq]
  cases sliceIndex (bl.data.bytes w) idx <;> rfl

theorem store_call_world {Hash Node GoType : Type} (Ref : Type) (BlobType : GoType)
    (bl : Store.blobLeafSequence Hash Node) (op : Op) (w : Store.World Hash) :
    (bl.call Ref BlobType op w).2 = w := by
  cases op with
  | getOffset idx => rfl
  | equalsAt idx other =>
    show (bl.equalsAt idx other w).2 = w
    rw [store_equalsAt_eq]
  | getItem idx =>
    show (bl.getItem idx w).2 = w
    rw [store_getItem_eq]
  | seqLen => rfl
  | numLeaves => rfl
  | valueReader => rfl
  | Chunks => rfl
  | Type_ => rfl

theorem store_run_world {Hash Node GoType : Type} (Ref : Type) (BlobType : GoType)
    (bl : Store.blobLeafSequence Hash Node) (ops : List Op) :
    ∀ w : Store.World Hash, (bl.run Ref BlobType ops w).2 = w := by
  induction ops with
  | nil => intro w; rfl
  | cons op ops ih =>
    intro w
    show (Store.blobLeafSequence.run Ref BlobType bl ops (bl.call Ref BlobType op w).2).2 = w
    rw [store_call_world, ih]

/-- The world is not a bystander: an assignment `s[0] = b` to a non-empty slice changes
the bytes the slice denotes. -/
theorem store_assign_writes {Hash : Type} (s : Store.Slice) (b : Byte)
    (w : Store.World Hash) (h : 0 < s.len) :
    (s.assign 0 b w).2.mem s.ptr = b := by
  show (Store.Slice.assign s (Int.ofNat 0) b w).2.mem s.ptr = b
  simp [Store.Slice.assign, Store.store, h]

/-- A reader call is recorded in the world. -/
theorem store_ReadValue_logged {Hash Node : Type} (vr : Store.ValueReader Hash Node)
    (h : Hash) (w : Store.World Hash) :
    (vr.ReadValue h w).1 = .ok (vr.resolve h) ∧
    (vr.ReadValue h w).2.resolved = h :: w.resolved :=
  ⟨rfl, rfl⟩

theorem store_equalsAtOnNew_eq {Hash Node : Type} (vr : Store.ValueReader Hash Node)
    (data : Store.Slice) (idx : Int) (other : GoValue) (w : Store.World Hash) :
    Store.equalsAtOnNew vr data idx other w
      = ((sliceIndex (data.bytes w) idx).bind (fun b => ifaceEq (.uint8 b) other), w) := by
  have h : Store.equalsAtOnNew vr data idx other w
      = Store.blobLeafSequence.equalsAt { data := data, vr := vr } idx other w := rfl
  rw [h, store_equalsAt_eq]

end Lemmas

/-! ## The claims -/

section Claims

variable {ValueReader : Type}

/-- C1: reading the leaf `newBlobLeafSequence(vr, data)` with `getItem` gives back the
bytes of `data` in their original order: `getItem(i)` is the byte `data[i]` for every
`i < len(data)`, and the traversal over the indices `0, ..., seqLen() - 1` returns the
whole of `data`, item by item. -/
theorem getItem_order_preservation (vr : ValueReader) (data : List Byte) :
    (∀ i : Fin data.length,
      (newBlobLeafSequence vr data).getItem ((i : Nat) : Int) = .ok (.uint8 (data.get i))) ∧
    readInOrder (newBlobLeafSequence vr data) = .ok (data.map GoValue.uint8) := by
  constructor
  · intro i
    unfold blobLeafSequence.getItem newBlobLeafSequence
    rw [sliceIndex_of_lt data i i.isLt]
    rfl
  · have h := readFrom_suffix (newBlobLeafSequence vr data) data [] rfl
    simpa [readInOrder, blobLeafSequence.seqLen, newBlobLeafSequence] using h

/-- C2: `getItem(idx)` fails, with the index-out-of-range panic and no item, exactly
when `idx < 0` or `idx >= seqLen()`, and returns an item exactly when
`0 <= idx < seqLen()`. -/
theorem getItem_fails_iff_out_of_range (bl : blobLeafSequence ValueReader) (idx : Int) :
    (bl.getItem idx = .error .indexOutOfRange ↔ (idx < 0 ∨ bl.seqLen ≤ idx)) ∧
    ((∃ item, bl.getItem idx = .ok item) ↔ (0 ≤ idx ∧ idx < bl.seqLen)) := by
  unfold blobLeafSequence.getItem blobLeafSequence.seqLen
  constructor
  · rw [← sliceIndex_error_iff]
    cases h : sliceIndex bl.data idx with
    | error e => cases e <;> simp [bind, Except.bind]
    | ok b => simp [bind, Except.bind, pure, Except.pure]
  · rw [← sliceIndex_ok_iff]
    cases h : sliceIndex bl.data idx with
    | error e => simp [bind, Except.bind]
    | ok b => simp [bind, Except.bind, pure, Except.pure]

/-- C3: at a leaf `getOffset` is the identity on valid indices: for an `int` index `i`
with `0 <= i < seqLen()`, `getOffset(i)` is `i`, the index at which `getItem(i)` reads
its item. -/
theorem getOffset_identity_on_valid (bl : blobLeafSequence ValueReader) (i : Int)
    (hi : isInt i) (h0 : 0 ≤ i) (h1 : i < bl.seqLen) :
    (bl.getOffset i : Int) = i ∧ bl.getOffset i = i.toNat ∧
      ∃ b, bl.data[bl.getOffset i]? = some b ∧ bl.getItem i = .ok (.uint8 b) := by
  have hcast : (bl.getOffset i : Int) = i :=
    toUint64_of_nonneg_lt i h0 (lt_trans hi.2 (by norm_num))
  have hnat : bl.getOffset i = i.toNat := by
    have h := congrArg Int.toNat hcast
    simpa using h
  refine ⟨hcast, hnat, ?_⟩
  have hlt : i.toNat < bl.data.length := by
    have : ((i.toNat : Nat) : Int) < (bl.data.length : Int) := by
      rw [Int.toNat_of_nonneg h0]; exact h1
    exact_mod_cast this
  refine ⟨bl.data.get ⟨i.toNat, hlt⟩, ?_, ?_⟩
  · rw [hnat]; simp [List.getElem?_eq_getElem hlt]
  · unfold blobLeafSequence.getItem
    have := sliceIndex_of_lt bl.data i.toNat hlt
    rw [Int.toNat_of_nonneg h0] at this
    rw [this]
    rfl

theorem getOffset_identity_on_valid_witness :
    isInt 1 ∧ (0 : Int) ≤ 1 ∧ (1 : Int) < (newBlobLeafSequence () [7, 8, 9]).seqLen ∧
      (((newBlobLeafSequence () [7, 8, 9]).getOffset 1 : Nat) : Int) = 1 ∧
      (newBlobLeafSequence () [7, 8, 9]).getOffset 1 = (1 : Int).toNat ∧
      ∃ b, (newBlobLeafSequence () [7, 8, 9]).data[(newBlobLeafSequence () [7, 8, 9]).getOffset 1]?
          = some b ∧
        (newBlobLeafSequence () [7, 8, 9]).getItem 1 = .ok (.uint8 b) :=
  ⟨by unfold isInt; decide, by decide, by decide,
    getOffset_identity_on_valid (newBlobLeafSequence () [7, 8, 9]) 1
      (by unfold isInt; decide) (by decide) (by decide)⟩

/-- C4: for the leaf built from a slice `data` (whose length fits an `int`, as every Go
slice's does), the leaf item count equals the length: `numLeaves() = seqLen() = len(data)`;
for the empty leaf both are 0. -/
theorem numLeaves_eq_seqLen (vr : ValueReader) (data : List Byte)
    (hlen : data.length < 2 ^ 63) :
    ((newBlobLeafSequence vr data).numLeaves : Int) = (newBlobLeafSequence vr data).seqLen ∧
    (newBlobLeafSequence vr data).seqLen = (data.length : Int) ∧
    (newBlobLeafSequence vr data).numLeaves = data.length ∧
    (newBlobLeafSequence vr []).numLeaves = 0 ∧
    (newBlobLeafSequence vr []).seqLen = 0 := by
  have hcast : (toUint64 (data.length : Int) : Int) = (data.length : Int) := by
    apply toUint64_of_nonneg_lt _ (Int.ofNat_nonneg _)
    have : ((data.length : Nat) : Int) < ((2 ^ 63 : Nat) : Int) := by exact_mod_cast hlen
    exact lt_trans this (by norm_num)
  refine ⟨hcast, rfl, ?_, rfl, rfl⟩
  show toUint64 (data.length : Int) = data.length
  exact_mod_cast hcast

theorem numLeaves_eq_seqLen_witness :
    [(7 : Byte), 8, 9].length < 2 ^ 63 ∧
    ((newBlobLeafSequence () [(7 : Byte), 8, 9]).numLeaves : Int)
      = (newBlobLeafSequence () [(7 : Byte), 8, 9]).seqLen ∧
    (newBlobLeafSequence () [(7 : Byte), 8, 9]).seqLen = ([(7 : Byte), 8, 9].length : Int) ∧
    (newBlobLeafSequence () [(7 : Byte), 8, 9]).numLeaves = [(7 : Byte), 8, 9].length ∧
    (newBlobLeafSequence () ([] : List Byte)).numLeaves = 0 ∧
    (newBlobLeafSequence () ([] : List Byte)).seqLen = 0 :=
  ⟨by decide, numLeaves_eq_seqLen () [7, 8, 9] (by decide)⟩

/-- C5: on a valid index `equalsAt` is byte equality with the stored item:
`equalsAt(idx, other)` returns true exactly when `other` is the byte `data[idx]` and
false otherwise; so `equalsAt(idx, getItem(idx))` is true, and a candidate of any other
dynamic type (such as the `int` 5 against the byte 5) yields false. -/
theorem equalsAt_is_byte_equality (bl : blobLeafSequence ValueReader) (idx : Int)
    (other : GoValue) (h0 : 0 ≤ idx) (h1 : idx < bl.seqLen) :
    ∃ b, bl.data[idx.toNat]? = some b ∧ bl.getItem idx = .ok (.uint8 b) ∧
      bl.equalsAt idx other = .ok (decide (other = .uint8 b)) ∧
      (bl.equalsAt idx other = .ok true ↔ other = .uint8 b) ∧
      (∀ item, bl.getItem idx = .ok item → bl.equalsAt idx item = .ok true) ∧
      ((∀ c, other ≠ .uint8 c) → bl.equalsAt idx other = .ok false) ∧
      bl.equalsAt idx (.int (b : Nat)) = .ok false := by
  have hlt : idx.toNat < bl.data.length := by
    have : ((idx.toNat : Nat) : Int) < (bl.data.length : Int) := by
      rw [Int.toNat_of_nonneg h0]; exact h1
    exact_mod_cast this
  have hs : sliceIndex bl.data idx = .ok (bl.data.get ⟨idx.toNat, hlt⟩) := by
    have := sliceIndex_of_lt bl.data idx.toNat hlt
    rwa [Int.toNat_of_nonneg h0] at this
  have heq : ∀ o, bl.equalsAt idx o
      = .ok (decide (o = .uint8 (bl.data.get ⟨idx.toNat, hlt⟩))) := by
    intro o
    unfold blobLeafSequence.equalsAt
    rw [hs]
    exact ifaceEq_uint8 _ o
  have hget : bl.getItem idx = .ok (.uint8 (bl.data.get ⟨idx.toNat, hlt⟩)) := by
    unfold blobLeafSequence.getItem
    rw [hs]
    rfl
  refine ⟨bl.data.get ⟨idx.toNat, hlt⟩, ?_, hget, heq other, ?_, ?_, ?_, ?_⟩
  · simp [List.getElem?_eq_getElem hlt]
  · rw [heq other]; simp
  · intro item hitem
    rw [hget] at hitem
    cases hitem
    rw [heq]; simp
  · intro hne
    rw [heq other]
    simp [hne _]
  · rw [heq]; simp

theorem equalsAt_is_byte_equality_witness :
    (0 : Int) ≤ 2 ∧ (2 : Int) < (newBlobLeafSequence () [1, 2, 5]).seqLen ∧
    ∃ b, (newBlobLeafSequence () [1, 2, 5]).data[(2 : Int).toNat]? = some b ∧
      (newBlobLeafSequence () [1, 2, 5]).getItem 2 = .ok (.uint8 b) ∧
      (newBlobLeafSequence () [1, 2, 5]).equalsAt 2 (.int 5)
        = .ok (decide (GoValue.int 5 = .uint8 b)) ∧
      ((newBlobLeafSequence () [1, 2, 5]).equalsAt 2 (.int 5) = .ok true
        ↔ GoValue.int 5 = .uint8 b) ∧
      (∀ item, (newBlobLeafSequence () [1, 2, 5]).getItem 2 = .ok item →
        (newBlobLeafSequence () [1, 2, 5]).equalsAt 2 item = .ok true) ∧
      ((∀ c, GoValue.int 5 ≠ .uint8 c) →
        (newBlobLeafSequence () [1, 2, 5]).equalsAt 2 (.int 5) = .ok false) ∧
      (newBlobLeafSequence () [1, 2, 5]).equalsAt 2 (.int (b : Nat)) = .ok false :=
  ⟨by decide, by decide,
    equalsAt_is_byte_equality (newBlobLeafSequence () [1, 2, 5]) 2 (.int 5)
      (by decide) (by decide)⟩

/-- C6: `Chunks()`, the outgoing chunk references, is the empty list for every leaf,
whatever its data and its reader. -/
theorem Chunks_empty (Ref : Type) (bl : blobLeafSequence ValueReader) :
    bl.Chunks Ref = [] ∧
    ∀ (vr : ValueReader) (data : List Byte), (newBlobLeafSequence vr data).Chunks Ref = [] :=
  ⟨rfl, fun _ _ => rfl⟩

/-- C7: the value reader is bound at construction: `newBlobLeafSequence(vr, data)`
returns `vr` from `valueReader()`, whatever `data` is. -/
theorem valueReader_bound_at_construction (vr : ValueReader) (data : List Byte) :
    (newBlobLeafSequence vr data).valueReader = vr ∧
    ∀ data2 : List Byte,
      (newBlobLeafSequence vr data2).valueReader = (newBlobLeafSequence vr data).valueReader :=
  ⟨rfl, fun _ => rfl⟩

/-- C8: `equalsAt` never consults the value reader: run in any world on the leaves
`newBlobLeafSequence(vr1, data)` and `newBlobLeafSequence(vr2, data)`, for any two
readers, `equalsAt(idx, other)` has the same outcome (the same boolean, or the same
panic); it leaves the world as it was, so the log of resolved chunks gains no entry; and
the outcome is the comparison of the byte of `data` at `idx` with `other`, a function of
the bytes of `data`, `idx` and `other` alone. -/
theorem equalsAt_never_consults_reader {Hash Node : Type}
    (vr1 vr2 : Store.ValueReader Hash Node) (data : Store.Slice) (idx : Int)
    (other : GoValue) (w : Store.World Hash) :
    (Store.equalsAtOnNew vr1 data idx other w).1
      = (Store.equalsAtOnNew vr2 data idx other w).1 ∧
    (Store.equalsAtOnNew vr1 data idx other w).2 = w ∧
    (Store.equalsAtOnNew vr1 data idx other w).2.resolved = w.resolved ∧
    (Store.equalsAtOnNew vr1 data idx other w).1
      = (sliceIndex (data.bytes w) idx).bind (fun b => ifaceEq (.uint8 b) other) ∧
    (Store.equalsAtOnNew vr1 data idx other w).1
      = (newBlobLeafSequence vr1 (data.bytes w)).equalsAt idx other := by
  rw [store_equalsAtOnNew_eq, store_equalsAtOnNew_eq]
  exact ⟨rfl, rfl, rfl, rfl, rfl⟩

/-- C9: a leaf is never mutated in place: after any sequence of calls of `getOffset`,
`equalsAt`, `getItem`, `seqLen`, `numLeaves`, `valueReader`, `Chunks` and `Type`
(panicking calls included) the world is the one before the calls: the bytes of the
leaf's `data` in its backing array and the log of the reader are unchanged, and
`getItem(i)`, `seqLen()` and `valueReader()` return what they returned before. -/
theorem leaf_never_mutated {Hash Node GoType : Type} (Ref : Type) (BlobType : GoType)
    (bl : Store.blobLeafSequence Hash Node) (ops : List Op) (w : Store.World Hash) :
    (bl.run Ref BlobType ops w).2 = w ∧
    bl.data.bytes (bl.run Ref BlobType ops w).2 = bl.data.bytes w ∧
    (bl.run Ref BlobType ops w).2.resolved = w.resolved ∧
    (∀ i : Int, (bl.getItem i (bl.run Ref BlobType ops w).2).1 = (bl.getItem i w).1) ∧
    (bl.seqLen (bl.run Ref BlobType ops w).2).1 = (bl.seqLen w).1 ∧
    (bl.valueReader (bl.run Ref BlobType ops w).2).1 = (bl.valueReader w).1 := by
  rw [store_run_world]
  exact ⟨rfl, rfl, rfl, fun _ => rfl, rfl, rfl⟩

/-- C10: `getOffset` checks no bounds and wraps: for every leaf and every `int` `idx`,
in range or not, `getOffset(idx)` returns `idx mod 2^64`; that is `idx` when
`idx >= 0` and `idx + 2^64`, not `idx`, when `idx < 0`; the result is the same on every
leaf, whatever its data. -/
theorem getOffset_wraps (bl : blobLeafSequence ValueReader) (idx : Int) (hi : isInt idx) :
    bl.getOffset idx = (idx % 2 ^ 64).toNat ∧
    (bl.getOffset idx : Int) = idx % 2 ^ 64 ∧
    (0 ≤ idx → (bl.getOffset idx : Int) = idx) ∧
    (idx < 0 → (bl.getOffset idx : Int) = idx + 2 ^ 64 ∧ (bl.getOffset idx : Int) ≠ idx) ∧
    ∀ (vr : ValueReader) (data : List Byte),
      (newBlobLeafSequence vr data).getOffset idx = bl.getOffset idx := by
  have hmod : (bl.getOffset idx : Int) = idx % 2 ^ 64 := toUint64_cast idx
  refine ⟨rfl, hmod, ?_, ?_, fun _ _ => rfl⟩
  · intro h0
    exact toUint64_of_nonneg_lt idx h0 (lt_trans hi.2 (by norm_num))
  · intro hneg
    have hlo : (0 : Int) ≤ idx + 2 ^ 64 := by
      have := hi.1
      linarith
    have hhi : idx + 2 ^ 64 < 2 ^ 64 := by linarith
    have hval : (bl.getOffset idx : Int) = idx + 2 ^ 64 := by
      rw [hmod, ← Int.add_emod_self, Int.emod_eq_of_lt hlo hhi]
    refine ⟨hval, ?_⟩
    rw [hval]
    intro h
    have : (2 : Int) ^ 64 = 0 := by linarith
    norm_num at this

theorem getOffset_wraps_witness :
    isInt (-1) ∧
    (newBlobLeafSequence () [7, 8, 9]).getOffset (-1) = ((-1 : Int) % 2 ^ 64).toNat ∧
    (((newBlobLeafSequence () [7, 8, 9]).getOffset (-1) : Nat) : Int) = (-1 : Int) % 2 ^ 64 ∧
    ((0 : Int) ≤ -1 → (((newBlobLeafSequence () [7, 8, 9]).getOffset (-1) : Nat) : Int) = -1) ∧
    ((-1 : Int) < 0 →
      (((newBlobLeafSequence () [7, 8, 9]).getOffset (-1) : Nat) : Int) = -1 + 2 ^ 64 ∧
      (((newBlobLeafSequence () [7, 8, 9]).getOffset (-1) : Nat) : Int) ≠ -1) ∧
    ∀ (vr : Unit) (data : List Byte),
      (newBlobLeafSequence vr data).getOffset (-1)
        = (newBlobLeafSequence () [7, 8, 9]).getOffset (-1) :=
  ⟨by unfold isInt; decide,
    getOffset_wraps (newBlobLeafSequence () [7, 8, 9]) (-1) (by unfold isInt; decide)⟩

/-- C11: `equalsAt` on an out-of-range index fails rather than answering false:
`equalsAt(idx, other)` raises the index-out-of-range panic, and so returns no boolean,
exactly when `idx < 0` or `idx >= seqLen()`, whatever the candidate; in particular every
`equalsAt` call on the empty leaf fails. -/
theorem equalsAt_fails_out_of_range (bl : blobLeafSequence ValueReader) (idx : Int)
    (other : GoValue) :
    (bl.equalsAt idx other = .error .indexOutOfRange ↔ (idx < 0 ∨ bl.seqLen ≤ idx)) ∧
    ((idx < 0 ∨ bl.seqLen ≤ idx) → ∀ r : Bool, bl.equalsAt idx other ≠ .ok r) ∧
    ∀ vr : ValueReader,
      (newBlobLeafSequence vr []).equalsAt idx other = .error .indexOutOfRange := by
  refine ⟨⟨?_, equalsAt_of_out_of_range bl idx other⟩, ?_, ?_⟩
  · intro herr
    by_contra hin
    rw [not_or, not_lt, not_le] at hin
    have hlt := toNat_lt_length bl.data idx hin.1 hin.2
    have h := equalsAt_of_lt bl idx.toNat hlt other
    rw [Int.toNat_of_nonneg hin.1, herr] at h
    cases h
  · intro hout r hr
    rw [equalsAt_of_out_of_range bl idx other hout] at hr
    cases hr
  · intro vr
    apply equalsAt_of_out_of_range
    show idx < 0 ∨ ((([] : List Byte).length : Nat) : Int) ≤ idx
    rcases lt_or_le idx 0 with h | h
    · exact Or.inl h
    · exact Or.inr (by simpa using h)

/-- C12: `equalsAt` is total on valid indices: for `0 <= idx < seqLen()` the call
`equalsAt(idx, other)` returns a boolean and raises no panic for every candidate, the
nil interface and candidates of an uncomparable dynamic type (slice, map, function)
included, which all yield false: the left operand's dynamic type is always `byte`. -/
theorem equalsAt_total_on_valid (bl : blobLeafSequence ValueReader) (idx : Int)
    (other : GoValue) (h0 : 0 ≤ idx) (h1 : idx < bl.seqLen) :
    (∃ r : Bool, bl.equalsAt idx other = .ok r) ∧
    (∀ e : Panic, bl.equalsAt idx other ≠ .error e) ∧
    bl.equalsAt idx .nil = .ok false ∧
    (∀ s, bl.equalsAt idx (.byteSlice s) = .ok false) ∧
    (∀ m, bl.equalsAt idx (.mapVal m) = .ok false) ∧
    (∀ f, bl.equalsAt idx (.funcVal f) = .ok false) := by
  have hlt := toNat_lt_length bl.data idx h0 h1
  have heq : ∀ o, bl.equalsAt idx o
      = .ok (decide (o = .uint8 (bl.data.get ⟨idx.toNat, hlt⟩))) := by
    intro o
    have h := equalsAt_of_lt bl idx.toNat hlt o
    rwa [Int.toNat_of_nonneg h0] at h
  refine ⟨⟨_, heq other⟩, ?_, ?_, ?_, ?_, ?_⟩
  · intro e he
    rw [heq other] at he
    cases he
  · rw [heq]; simp
  · intro s; rw [heq]; simp
  · intro m; rw [heq]; simp
  · intro f; rw [heq]; simp

theorem equalsAt_total_on_valid_witness :
    (0 : Int) ≤ 1 ∧ (1 : Int) < (newBlobLeafSequence () [7, 8, 9]).seqLen ∧
    (∃ r : Bool, (newBlobLeafSequence () [7, 8, 9]).equalsAt 1 (.byteSlice [8]) = .ok r) ∧
    (∀ e : Panic, (newBlobLeafSequence () [7, 8, 9]).equalsAt 1 (.byteSlice [8]) ≠ .error e) ∧
    (newBlobLeafSequence () [7, 8, 9]).equalsAt 1 .nil = .ok false ∧
    (∀ s, (newBlobLeafSequence () [7, 8, 9]).equalsAt 1 (.byteSlice s) = .ok false) ∧
    (∀ m, (newBlobLeafSequence () [7, 8, 9]).equalsAt 1 (.mapVal m) = .ok false) ∧
    (∀ f, (newBlobLeafSequence () [7, 8, 9]).equalsAt 1 (.funcVal f) = .ok false) :=
  ⟨by decide, by decide,
    equalsAt_total_on_valid (newBlobLeafSequence () [7, 8, 9]) 1 (.byteSlice [8])
      (by decide) (by decide)⟩

/-- C13: item-wise comparison decides content equality of leaves: two leaves hold the
same bytes if and only if `a.seqLen() = b.seqLen()` and `a.equalsAt(i, b.getItem(i))`
is true for every `i` with `0 <= i < a.seqLen()`. -/
theorem data_eq_iff_itemwise_equal {VR1 VR2 : Type} (a : blobLeafSequence VR1)
    (b : blobLeafSequence VR2) :
    a.data = b.data ↔
      (a.seqLen = b.seqLen ∧
        ∀ i : Int, 0 ≤ i → i < a.seqLen → equalsAtItemOf a b i = .ok true) := by
  have key : ∀ (n : Nat) (ha : n < a.data.length) (hb : n < b.data.length),
      equalsAtItemOf a b (n : Int)
        = .ok (decide (b.data.get ⟨n, hb⟩ = a.data.get ⟨n, ha⟩)) := by
    intro n ha hb
    unfold equalsAtItemOf
    rw [getItem_of_lt b n hb]
    show a.equalsAt (n : Int) (.uint8 (b.data.get ⟨n, hb⟩)) = _
    rw [equalsAt_of_lt a n ha]
    simp
  constructor
  · intro h
    have hlen : a.data.length = b.data.length := by rw [h]
    refine ⟨by simp [blobLeafSequence.seqLen, hlen], ?_⟩
    intro i h0 h1
    have ha := toNat_lt_length a.data i h0 h1
    have hb : i.toNat < b.data.length := hlen ▸ ha
    have hk := key i.toNat ha hb
    rw [Int.toNat_of_nonneg h0] at hk
    rw [hk]
    simp [h]
  · rintro ⟨hlen, hall⟩
    have hlen2 : a.data.length = b.data.length := by
      have : (a.data.length : Int) = (b.data.length : Int) := hlen
      exact_mod_cast this
    apply List.ext_get hlen2
    intro n ha hb
    have h1 : ((n : Nat) : Int) < a.seqLen := by
      show ((n : Nat) : Int) < (a.data.length : Int)
      exact_mod_cast ha
    have hk := hall (n : Int) (Int.ofNat_nonneg n) h1
    rw [key n ha hb] at hk
    have hd : decide (b.data.get ⟨n, hb⟩ = a.data.get ⟨n, ha⟩) = true := by
      injection hk
    exact (of_decide_eq_true hd).symm

/-- C14: the constructor does not enforce non-emptiness: `newBlobLeafSequence(vr, data)`
returns a leaf holding `data` and `vr` for every `data`, and for empty (or nil) `data`
that leaf has `seqLen() = 0` and `numLeaves() = 0`, and `getItem(idx)` fails on it for
every `idx`. -/
theorem newBlobLeafSequence_accepts_empty (vr : ValueReader) (data : List Byte) :
    ((newBlobLeafSequence vr data).data = data ∧ (newBlobLeafSequence vr data).vr = vr) ∧
    (newBlobLeafSequence vr []).seqLen = 0 ∧
    (newBlobLeafSequence vr []).numLeaves = 0 ∧
    (∀ idx : Int, (newBlobLeafSequence vr []).getItem idx = .error .indexOutOfRange) ∧
    (data.length = 0 →
      (newBlobLeafSequence vr data).seqLen = 0 ∧ (newBlobLeafSequence vr data).numLeaves = 0 ∧
      ∀ idx : Int, (newBlobLeafSequence vr data).getItem idx = .error .indexOutOfRange) := by
  have hempty : ∀ idx : Int,
      (newBlobLeafSequence vr []).getItem idx = .error .indexOutOfRange := by
    intro idx
    cases idx <;> rfl
  refine ⟨⟨rfl, rfl⟩, rfl, rfl, hempty, ?_⟩
  intro h
  have hnil : data = [] := List.length_eq_zero.mp h
  subst hnil
  exact ⟨rfl, rfl, hempty⟩

end Claims

end Noms
